import Mathlib

/-!
Verification development for the mirror_cli repository: a shallow embedding of
the configuration-reconciliation layer (file loading, environment-variable
interpolation, document-to-request translation, directory walking, settings
precedence, and the remote-call command wrappers), together with theorems
settling the specification claims.

Go strings are modelled as lists of characters (`List Char`); Go byte-wise
string comparison coincides with character-code comparison for the inputs the
program handles.  Fallible Go functions returning `(T, error)` are modelled as
`Except (List Char) T`.
-/

namespace MirrorCli

/-- ASCII lower-casing of a character list; models `strings.ToLower` on the
ASCII strings the program compares (file extensions, kinds, peer types,
confirmation responses). -/
def toLowerCL (s : List Char) : List Char := s.map Char.toLower

/-- ASCII upper-casing of a character list; models `strings.ToUpper` as used by
viper when deriving environment-variable names. -/
def toUpperCL (s : List Char) : List Char := s.map Char.toUpper

/-- Lexicographic (byte-wise) string order, as used by Go's `sort.Strings` on
directory entry names inside `filepath.Walk`. -/
def strLE : List Char → List Char → Bool
  | [], _ => true
  | _ :: _, [] => false
  | a :: as, b :: bs => if a < b then true else if b < a then false else strLE as bs

/-- Tests whether the first list occurs at the very beginning of the second. -/
def isSubAt : List Char → List Char → Bool
  | [], _ => true
  | _ :: _, [] => false
  | a :: as, b :: bs => a = b && isSubAt as bs

/-- Tests whether the first list occurs contiguously anywhere in the second;
used to state that Go error messages built with `fmt.Errorf` contain the
offending literal value. -/
def hasSub (needle : List Char) : List Char → Bool
  | [] => needle.isEmpty
  | c :: rest => isSubAt needle (c :: rest) || hasSub needle rest

/-- Models `strings.HasSuffix`. -/
def hasSuffixCL (s suf : List Char) : Bool := isSubAt suf.reverse s.reverse

/-- Association-list lookup with decidable key equality; models map lookup for
environment blocks and viper setting stores. -/
def envGet {α : Type} : List (List Char × α) → List Char → Option α
  | [], _ => none
  | (k, v) :: rest, key => if k = key then some v else envGet rest key

/-!
Embedding of Go's `os.Expand` / `os.ExpandEnv`, which `LoadConfigFile` applies
to the raw file text before YAML parsing.  The functions below transcribe
`os.Expand`, `getShellName`, `isShellSpecialVar` and `isAlphaNum` from the Go
standard library (package `os`), operating on character lists.
-/

/-- Models `os.isShellSpecialVar`: the single-character shell variables. -/
def isShellSpecialVar (c : Char) : Bool :=
  c = '*' || c = '#' || c = '$' || c = '@' || c = '!' || c = '?' ||
    ('0' ≤ c && c ≤ '9')

/-- Models `os.isAlphaNum`: underscore, digits and ASCII letters. -/
def isAlphaNum (c : Char) : Bool :=
  c = '_' || ('0' ≤ c && c ≤ '9') || ('a' ≤ c && c ≤ 'z') || ('A' ≤ c && c ≤ 'Z')

/-- Longest alphanumeric run at the head of the list; models the trailing
"scan alphanumerics" loop of `os.getShellName`. -/
def scanAlphaNum : List Char → List Char
  | [] => []
  | c :: rest => if isAlphaNum c then c :: scanAlphaNum rest else []

/-- Characters strictly before the first closing brace, or `none` when no
closing brace exists; models the "scan to closing brace" loop of
`os.getShellName`. -/
def takeUntilBrace : List Char → Option (List Char)
  | [] => none
  | c :: rest =>
    if c = '\x7d' then some [] else (takeUntilBrace rest).map (fun l => c :: l)

/-- Result of the brace-delimited branch of `os.getShellName`: the name between
the braces and the number of characters consumed (bad syntax eats the broken
characters and yields an empty name, exactly as in Go). -/
def braceName (rest : List Char) : List Char × Nat :=
  match takeUntilBrace rest with
  | some [] => ([], 2)
  | some name => (name, name.length + 2)
  | none => ([], 1)

/-- Models `os.getShellName`, applied to the text immediately following a
dollar sign: returns the referenced name and the number of characters of the
input it spans. -/
def getShellName : List Char → List Char × Nat
  | [] => ([], 0)
  | c :: rest =>
    if c = '\x7b' then
      match rest with
      | c1 :: c2 :: _ =>
        if isShellSpecialVar c1 && c2 = '\x7d' then ([c1], 3) else braceName rest
      | _ => braceName rest
    else if isShellSpecialVar c then ([c], 1)
    else
      let name := scanAlphaNum (c :: rest)
      (name, name.length)

/-- Models `os.Expand`: replaces every `$name` or `$\x7bname\x7d` reference by
`mapping name`, leaving a dollar sign that starts no reference untouched and
eating syntactically broken references. -/
def expand (mapping : List Char → List Char) : List Char → List Char
  | [] => []
  | c :: rest =>
    if c = '$' && !rest.isEmpty then
      let nw := getShellName rest
      if nw.1.isEmpty && nw.2 > 0 then expand mapping (rest.drop nw.2)
      else if nw.1.isEmpty then c :: expand mapping rest
      else mapping nw.1 ++ expand mapping (rest.drop nw.2)
    else c :: expand mapping rest
termination_by l => l.length
decreasing_by
  all_goals simp [List.length_drop]
  all_goals omega

/-- Models `os.ExpandEnv` with the process environment given as an association
list: `os.Getenv` yields the bound value, or the empty string when the name is
unbound. -/
def ExpandEnv (env : List (List Char × List Char)) (s : List Char) : List Char :=
  expand (fun name => (envGet env name).getD []) s

/-!
The declarative document model of `internal/config/fileconfig.go`: the typed
YAML structures (`FileConfig`, `Metadata`, `Spec`, `TableConfig`, the optional
CDC/snapshot/columns sub-records) and the outbound protobuf request shapes the
translators build (`pb.Peer`, `pb.CreateCDCFlowRequest`).
-/

/-- A generic YAML value, modelling the Go `interface{}` that `Spec.Config`
is decoded into before `convertToPostgresConfig` / `convertToSnowflakeConfig`
re-serialize it. -/
inductive YamlVal : Type where
  | yStr (s : List Char)
  | yInt (n : Int)
  | yBool (b : Bool)
  | yMap (entries : List (List Char × YamlVal))

/-- Models the `Metadata` struct of fileconfig.go. -/
structure Metadata : Type where
  Name : List Char
  Environment : List Char
  Description : List Char

/-- Models the `TableConfig` struct: one table-mapping entry of a Mirror
document. -/
structure TableConfig : Type where
  Source : List Char
  Destination : List Char
  PartitionKey : List Char
  ExcludeColumns : List (List Char)

/-- Models the `CDCConfig` struct (uint32/uint64 fields as `Nat`). -/
structure CDCConfig : Type where
  BatchSize : Nat
  IdleTimeoutSeconds : Nat
  InitialSnapshot : Bool
  PublicationName : List Char
  ReplicationSlotName : List Char

/-- Models the `SnapshotConfig` struct. -/
structure SnapshotConfig : Type where
  NumRowsPerPartition : Nat
  MaxParallelWorkers : Nat
  NumTablesInParallel : Nat

/-- Models the `ColumnsConfig` struct. -/
structure ColumnsConfig : Type where
  SoftDeleteColumn : List Char
  SyncedAtColumn : List Char

/-- Models the `Validation` struct of fileconfig.go. -/
structure ValidationCfg : Type where
  Timeout : List Char
  RetryAttempts : Int

/-- Models the `Spec` struct: the union of the Peer fields (`Type`, `Config`,
`Validation`) and the Mirror fields.  `Config` is `none` when the YAML key is
absent (a nil `interface{}` in Go); `Env` models the optional string map. -/
structure Spec : Type where
  Type' : List Char
  Config : Option YamlVal
  Validation : Option ValidationCfg
  Source : List Char
  Destination : List Char
  Tables : List TableConfig
  CDC : Option CDCConfig
  Snapshot : Option SnapshotConfig
  Columns : Option ColumnsConfig
  Env : List (List Char × List Char)

/-- Models the `FileConfig` struct: one parsed YAML document. -/
structure FileConfig : Type where
  APIVersion : List Char
  Kind : List Char
  Metadata : Metadata
  Spec : Spec

/-- Models `pb.DBType`. -/
inductive DBType : Type where
  | POSTGRES
  | SNOWFLAKE
  | BIGQUERY

/-- Models `pb.PostgresConfig` (Port is uint32; MetadataSchema is an optional
pointer field). -/
structure PBPostgresConfig : Type where
  Host : List Char
  Port : Nat
  User : List Char
  Password : List Char
  Database : List Char
  TlsHost : List Char
  MetadataSchema : Option (List Char)

/-- Models `pb.SnowflakeConfig` (Password and MetadataSchema are optional
pointer fields; PrivateKey is a plain string). -/
structure PBSnowflakeConfig : Type where
  AccountId : List Char
  Username : List Char
  PrivateKey : List Char
  Password : Option (List Char)
  Database : List Char
  Warehouse : List Char
  Role : List Char
  QueryTimeout : Nat
  MetadataSchema : Option (List Char)

/-- Models the oneof `pb.Peer.Config`. -/
inductive PeerConfig : Type where
  | postgresConfig (c : PBPostgresConfig)
  | snowflakeConfig (c : PBSnowflakeConfig)

/-- Models `pb.Peer` (`Config` is `none` until the oneof is set). -/
structure PBPeer : Type where
  Name : List Char
  Type' : DBType
  Config : Option PeerConfig

/-- Models `pb.TableMapping`. -/
structure PBTableMapping : Type where
  SourceTableIdentifier : List Char
  DestinationTableIdentifier : List Char
  PartitionKey : List Char
  Exclude : List (List Char)

/-- Models `pb.FlowConnectionConfigs`, with the proto3 zero values for every
field `ToMirrorProto` does not assign. -/
structure FlowConnectionConfigs : Type where
  FlowJobName : List Char
  SourceName : List Char
  DestinationName : List Char
  TableMappings : List PBTableMapping
  Env : List (List Char × List Char)
  MaxBatchSize : Nat
  IdleTimeoutSeconds : Nat
  DoInitialSnapshot : Bool
  PublicationName : List Char
  ReplicationSlotName : List Char
  SnapshotNumRowsPerPartition : Nat
  SnapshotMaxParallelWorkers : Nat
  SnapshotNumTablesInParallel : Nat
  SoftDeleteColName : List Char
  SyncedAtColName : List Char

/-- Models `pb.CreateCDCFlowRequest`. -/
structure CreateCDCFlowRequest : Type where
  ConnectionConfigs : FlowConnectionConfigs

/-!
The translators of fileconfig.go.  `convertToPostgresConfig` and
`convertToSnowflakeConfig` round-trip the generic `Spec.Config` value through
`yaml.Marshal`/`yaml.Unmarshal` into the typed settings struct; the round trip
is modelled as direct field extraction from the YAML mapping, where an absent
key leaves the Go zero value and a key of the wrong shape is a YAML
unmarshalling error.
-/

/-- String field of a YAML mapping: the Go zero value `""` when the key is
absent, an unmarshalling error when the value is not a string. -/
def yamlStrField (m : List (List Char × YamlVal)) (k : List Char) :
    Except (List Char) (List Char) :=
  match envGet m k with
  | none => .ok []
  | some (.yStr s) => .ok s
  | some _ => .error ("cannot unmarshal field ".toList ++ k)

/-- Integer field of a YAML mapping: zero when absent, an unmarshalling error
when the value is not an integer. -/
def yamlIntField (m : List (List Char × YamlVal)) (k : List Char) :
    Except (List Char) Int :=
  match envGet m k with
  | none => .ok 0
  | some (.yInt n) => .ok n
  | some _ => .error ("cannot unmarshal field ".toList ++ k)

/-- Unsigned-integer field of a YAML mapping (Go uint64): zero when absent, an
unmarshalling error when the value is not a non-negative integer. -/
def yamlNatField (m : List (List Char × YamlVal)) (k : List Char) :
    Except (List Char) Nat :=
  match envGet m k with
  | none => .ok 0
  | some (.yInt n) => if n < 0 then .error ("cannot unmarshal field ".toList ++ k) else .ok n.toNat
  | some _ => .error ("cannot unmarshal field ".toList ++ k)

/-- Go's conversion `uint32(x)` from `int`: truncation to 32 bits. -/
def toUint32 (x : Int) : Nat := (x.emod 4294967296).toNat

/-- Models `convertToPostgresConfig`: re-serializes the generic config value
into a `PostgresConfig` and copies it field by field into the protobuf shape;
`MetadataSchema` is set only when non-empty.  No required-field validation is
performed.  A nil config (`none`) unmarshals to the zero-valued struct. -/
def convertToPostgresConfig : Option YamlVal → Except (List Char) PBPostgresConfig
  | none => .ok ⟨[], 0, [], [], [], [], none⟩
  | some (.yMap m) => do
    let host ← yamlStrField m ("host".toList)
    let port ← yamlIntField m ("port".toList)
    let user ← yamlStrField m ("user".toList)
    let password ← yamlStrField m ("password".toList)
    let database ← yamlStrField m ("database".toList)
    let tlsHost ← yamlStrField m ("tls_host".toList)
    let metadataSchema ← yamlStrField m ("metadata_schema".toList)
    .ok ⟨host, toUint32 port, user, password, database, tlsHost,
      if metadataSchema.isEmpty then none else some metadataSchema⟩
  | some _ => .error ("cannot unmarshal config into PostgresConfig".toList)

/-- Models `convertToSnowflakeConfig`: same round trip for the Snowflake
settings; `PrivateKey`, `Password` and `MetadataSchema` are set only when
non-empty. -/
def convertToSnowflakeConfig : Option YamlVal → Except (List Char) PBSnowflakeConfig
  | none => .ok ⟨[], [], [], none, [], [], [], 0, none⟩
  | some (.yMap m) => do
    let accountId ← yamlStrField m ("account_id".toList)
    let username ← yamlStrField m ("username".toList)
    let privateKey ← yamlStrField m ("private_key".toList)
    let password ← yamlStrField m ("password".toList)
    let database ← yamlStrField m ("database".toList)
    let warehouse ← yamlStrField m ("warehouse".toList)
    let role ← yamlStrField m ("role".toList)
    let queryTimeout ← yamlNatField m ("query_timeout".toList)
    let metadataSchema ← yamlStrField m ("metadata_schema".toList)
    .ok ⟨accountId, username,
      if privateKey.isEmpty then [] else privateKey,
      if password.isEmpty then none else some password,
      database, warehouse, role, queryTimeout,
      if metadataSchema.isEmpty then none else some metadataSchema⟩
  | some _ => .error ("cannot unmarshal config into SnowflakeConfig".toList)

/-- Models `FileConfig.ToPeerProto`: rejects a non-Peer kind naming the kind
received, dispatches case-insensitively on `spec.type` (postgres/postgresql
and snowflake), and rejects any other type naming the literal string
received. -/
def FileConfig.ToPeerProto (fc : FileConfig) : Except (List Char) PBPeer :=
  if fc.Kind ≠ "Peer".toList then
    .error ("config is not a Peer, got: ".toList ++ fc.Kind)
  else if toLowerCL fc.Spec.Type' = "postgres".toList ∨
      toLowerCL fc.Spec.Type' = "postgresql".toList then
    match convertToPostgresConfig fc.Spec.Config with
    | .error e => .error e
    | .ok cfg => .ok ⟨fc.Metadata.Name, .POSTGRES, some (.postgresConfig cfg)⟩
  else if toLowerCL fc.Spec.Type' = "snowflake".toList then
    match convertToSnowflakeConfig fc.Spec.Config with
    | .error e => .error e
    | .ok cfg => .ok ⟨fc.Metadata.Name, .SNOWFLAKE, some (.snowflakeConfig cfg)⟩
  else
    .error ("unsupported peer type: ".toList ++ fc.Spec.Type')

/-- The per-entry copy `ToMirrorProto` performs inside its loop over
`fc.Spec.Tables`: each field of the document entry is copied verbatim. -/
def convertTableMapping (t : TableConfig) : PBTableMapping :=
  ⟨t.Source, t.Destination, t.PartitionKey, t.ExcludeColumns⟩

/-- Models `FileConfig.ToMirrorProto`: rejects a non-Mirror kind naming the
kind received, otherwise builds the request with the table mappings copied
in order, and the CDC, snapshot and column sub-records flattened in (proto3
zero values when a sub-record is absent). -/
def FileConfig.ToMirrorProto (fc : FileConfig) : Except (List Char) CreateCDCFlowRequest :=
  if fc.Kind ≠ "Mirror".toList then
    .error ("config is not a Mirror, got: ".toList ++ fc.Kind)
  else
    .ok ⟨⟨fc.Metadata.Name, fc.Spec.Source, fc.Spec.Destination,
      fc.Spec.Tables.map convertTableMapping, fc.Spec.Env,
      (match fc.Spec.CDC with | none => 0 | some c => c.BatchSize),
      (match fc.Spec.CDC with | none => 0 | some c => c.IdleTimeoutSeconds),
      (match fc.Spec.CDC with | none => false | some c => c.InitialSnapshot),
      (match fc.Spec.CDC with | none => [] | some c => c.PublicationName),
      (match fc.Spec.CDC with | none => [] | some c => c.ReplicationSlotName),
      (match fc.Spec.Snapshot with | none => 0 | some s => s.NumRowsPerPartition),
      (match fc.Spec.Snapshot with | none => 0 | some s => s.MaxParallelWorkers),
      (match fc.Spec.Snapshot with | none => 0 | some s => s.NumTablesInParallel),
      (match fc.Spec.Columns with | none => [] | some c => c.SoftDeleteColumn),
      (match fc.Spec.Columns with | none => [] | some c => c.SyncedAtColumn)⟩⟩

/-- Models `LoadConfigFile` modulo the file read: interpolate environment
variables into the raw text with `os.ExpandEnv`, then parse the result as
YAML (the parser is an abstract parameter, since yaml.v3 is external). -/
def LoadConfigFile (parse : List Char → Except (List Char) FileConfig)
    (env : List (List Char × List Char)) (data : List Char) :
    Except (List Char) FileConfig :=
  parse (ExpandEnv env data)

/-!
Directory loading (`LoadConfigsFromDirectory`).  The filesystem snapshot is a
finite tree; `filepath.Walk` visits a directory's entries in sorted name order
(Go's `readDirNames` sorts the names the OS returns with `sort.Strings`), so
the walk is modelled with an explicit sort of each directory's entry list.
An insertion sort is used; since the names within one directory are distinct,
any sorting algorithm produces the same (unique) sorted order as
`sort.Strings`.
-/

/-- A filesystem snapshot: a regular file with its raw content, or a directory
with its named entries in the (arbitrary) order the operating system returns
them. -/
inductive FSTree : Type where
  | file (content : List Char)
  | dir (entries : List (List Char × FSTree))

/-- The recognized-extension test of `LoadConfigsFromDirectory`:
`strings.HasSuffix(strings.ToLower(path), ".yaml")` or `".yml"`. -/
def pathMatches (path : List Char) : Bool :=
  hasSuffixCL (toLowerCL path) (".yaml".toList) || hasSuffixCL (toLowerCL path) (".yml".toList)

/-- Path of a directory entry: `filepath.Join(dir, name)` for the clean paths
the walk builds. -/
def childPath (p name : List Char) : List Char := p ++ '/' :: name

/-- Name order on directory entries, as `sort.Strings` orders the names
`readDirNames` returns. -/
def entryLE (a b : List Char × FSTree) : Bool := strLE a.1 b.1

/-- Insertion into a name-sorted entry list. -/
def insertSorted (a : List Char × FSTree) : List (List Char × FSTree) → List (List Char × FSTree)
  | [] => [a]
  | b :: rest => if entryLE a b then a :: b :: rest else b :: insertSorted a rest

/-- Sorts a directory's entries by name; models the `sort.Strings` call of
`readDirNames` inside `filepath.Walk`. -/
def sortEntries : List (List Char × FSTree) → List (List Char × FSTree)
  | [] => []
  | a :: rest => insertSorted a (sortEntries rest)

theorem insertSorted_sizeOf (a : List Char × FSTree) (l : List (List Char × FSTree)) :
    sizeOf (insertSorted a l) = 1 + sizeOf a + sizeOf l := by
  induction l with
  | nil => simp [insertSorted]
  | cons b rest ih =>
    simp only [insertSorted]
    split
    · simp
    · simp [ih]
      omega

theorem sortEntries_sizeOf (l : List (List Char × FSTree)) :
    sizeOf (sortEntries l) = sizeOf l := by
  induction l with
  | nil => rfl
  | cons a rest ih => simp [sortEntries, insertSorted_sizeOf, ih]

mutual
/-- Models the walk of `LoadConfigsFromDirectory` over a snapshot rooted at
`p`: a regular file whose (lowercased) path ends in `.yaml`/`.yml` is loaded
with `load`, any load error aborts the whole walk, a directory is visited
recursively in sorted name order, and everything else is skipped. -/
def walkTree (load : List Char → List Char → Except (List Char) FileConfig) :
    List Char → FSTree → Except (List Char) (List FileConfig)
  | p, .file content =>
    if pathMatches p then
      match load p content with
      | .error e => .error e
      | .ok cfg => .ok [cfg]
    else .ok []
  | p, .dir es => walkEntries load p (sortEntries es)
termination_by p t => sizeOf t
decreasing_by
  simp [sortEntries_sizeOf] <;> omega

/-- The walk over an already-sorted entry list of one directory. -/
def walkEntries (load : List Char → List Char → Except (List Char) FileConfig) :
    List Char → List (List Char × FSTree) → Except (List Char) (List FileConfig)
  | _, [] => .ok []
  | p, e :: rest =>
    match walkTree load (childPath p e.1) e.2 with
    | .error err => .error err
    | .ok cfgs =>
      match walkEntries load p rest with
      | .error err => .error err
      | .ok more => .ok (cfgs ++ more)
termination_by p l => sizeOf l
decreasing_by
  · obtain ⟨n, t⟩ := e
    simp <;> omega
  · simp <;> omega
end

/-- The per-file loader of `LoadConfigsFromDirectory`: `LoadConfigFile`, with
a load error wrapped as `failed to load <path>: <err>`. -/
def loadOneFile (parse : List Char → Except (List Char) FileConfig)
    (env : List (List Char × List Char)) (path content : List Char) :
    Except (List Char) FileConfig :=
  match LoadConfigFile parse env content with
  | .error e => .error ("failed to load ".toList ++ path ++ ": ".toList ++ e)
  | .ok cfg => .ok cfg

/-- Models `LoadConfigsFromDirectory`: walk the snapshot under `dirPath`,
loading every recognized file with `LoadConfigFile` and aborting on the first
failure. -/
def LoadConfigsFromDirectory (parse : List Char → Except (List Char) FileConfig)
    (env : List (List Char × List Char)) (dirPath : List Char) (tree : FSTree) :
    Except (List Char) (List FileConfig) :=
  walkTree (loadOneFile parse env) dirPath tree

mutual
/-- Canonical form of a snapshot: every directory's entries recursively
canonicalized and sorted by name.  Two snapshots with the same canonical form
are the same directory contents handed back by the operating system in
(possibly) different orders. -/
def canon : FSTree → FSTree
  | .file c => .file c
  | .dir es => .dir (sortEntries (canonEntries es))

/-- Canonical form of each entry of a directory. -/
def canonEntries : List (List Char × FSTree) → List (List Char × FSTree)
  | [] => []
  | e :: rest => (e.1, canon e.2) :: canonEntries rest
end

mutual
/-- Number of recognized (`.yaml`/`.yml`) regular files in the snapshot, in
any order. -/
def countMatching : List Char → FSTree → Nat
  | p, .file _ => if pathMatches p then 1 else 0
  | p, .dir es => countMatchingList p es

/-- Number of recognized files under each entry of a directory. -/
def countMatchingList : List Char → List (List Char × FSTree) → Nat
  | _, [] => 0
  | p, e :: rest => countMatching (childPath p e.1) e.2 + countMatchingList p rest
end

/-- The file at path `p'` with content `c` exists in the snapshot `t` rooted
at path `p`. -/
inductive hasFile : List Char → FSTree → List Char → List Char → Prop where
  | here (p c) : hasFile p (.file c) p c
  | there {p es p' c} (e) (he : e ∈ es) (h : hasFile (childPath p e.1) e.2 p' c) :
      hasFile p (.dir es) p' c

/-!
CLI settings (`internal/config/config.go`).  `LoadConfig` starts from
`DefaultConfig` and unmarshals viper's merged settings over it; viper merges,
highest precedence first, environment variables named with the fixed prefix
`MIRROR_CLI` (via `SetEnvPrefix`/`AutomaticEnv`), then the YAML config file.
The two stores are modelled as association lists of typed values, and viper's
merge as an environment-first lookup per key.
-/

/-- A scalar setting value as viper holds it. -/
inductive ConfigValue : Type where
  | vStr (s : List Char)
  | vInt (n : Int)
  | vBool (b : Bool)

/-- Models the `Config` struct of config.go. -/
structure Config : Type where
  PeerDBHost : List Char
  PeerDBPort : Int
  TLS : Bool
  Username : List Char
  Password : List Char

/-- Models `DefaultConfig`. -/
def DefaultConfig : Config :=
  ⟨"localhost".toList, 8112, false, [], []⟩

/-- The environment-variable name viper derives for a settings key:
`SetEnvPrefix("MIRROR_CLI")` with `AutomaticEnv` reads
`MIRROR_CLI_` + the upper-cased key. -/
def viperEnvKey (key : List Char) : List Char :=
  "MIRROR_CLI_".toList ++ toUpperCL key

/-- Models viper's per-key merge as `LoadConfig` sees it: an environment
variable with the prefixed name wins over the config-file entry. -/
def viperGet (file env : List (List Char × ConfigValue)) (key : List Char) :
    Option ConfigValue :=
  match envGet env (viperEnvKey key) with
  | some v => some v
  | none => envGet file key

/-- Unmarshalling of one string field: viper's value when the key is set (and
of string shape), the prior field value otherwise. -/
def unmarshalStr (v : Option ConfigValue) (dflt : List Char) : List Char :=
  match v with
  | some (.vStr s) => s
  | _ => dflt

/-- Unmarshalling of one integer field. -/
def unmarshalInt (v : Option ConfigValue) (dflt : Int) : Int :=
  match v with
  | some (.vInt n) => n
  | _ => dflt

/-- Unmarshalling of one boolean field. -/
def unmarshalBool (v : Option ConfigValue) (dflt : Bool) : Bool :=
  match v with
  | some (.vBool b) => b
  | _ => dflt

/-- Models `LoadConfig`: start from `DefaultConfig`, then overwrite every
field for which viper's merged stores hold a value (file entries overridden
by `MIRROR_CLI`-prefixed environment variables). -/
def LoadConfig (file env : List (List Char × ConfigValue)) : Config :=
  ⟨unmarshalStr (viperGet file env ("peerdb_host".toList)) DefaultConfig.PeerDBHost,
    unmarshalInt (viperGet file env ("peerdb_port".toList)) DefaultConfig.PeerDBPort,
    unmarshalBool (viperGet file env ("tls".toList)) DefaultConfig.TLS,
    unmarshalStr (viperGet file env ("username".toList)) DefaultConfig.Username,
    unmarshalStr (viperGet file env ("password".toList)) DefaultConfig.Password⟩

/-!
The gRPC client wrapper (`internal/client/client.go`) and the destructive
cmd-layer operations (`dropPeer` in cmd/peer.go, `dropMirror` and `editMirror`
in cmd/mirror.go).  A remote call is recorded as a trace entry carrying the
request's distinguishing fields; the outcome of each remote invocation is an
input parameter, since the server is external.
-/

/-- Models `pb.FlowStatus` (the states this client requests). -/
inductive FlowStatus : Type where
  | STATUS_PAUSED
  | STATUS_RUNNING
  | STATUS_TERMINATED

/-- One remote call issued through the flow-service client: a
`FlowStateChange` request with its requested state and whether it carries a
configuration update, or a `DropPeer` request. -/
inductive RemoteCall : Type where
  | flowStateChange (flowJobName : List Char) (requested : FlowStatus) (hasUpdate : Bool)
  | dropPeerReq (peerName : List Char)

/-- Models `Client.UpdateMirror`: pause the mirror, apply the configuration
update (a `FlowStateChange` to `STATUS_PAUSED` carrying the update), then
resume it; each step's remote outcome is a parameter, a failing step stops
the sequence and returns its wrapped error.  Returns the ordered trace of
remote calls issued alongside the result. -/
def UpdateMirror (mirrorName : List Char)
    (pauseRes updateRes resumeRes : Except (List Char) Unit) :
    List RemoteCall × Except (List Char) Unit :=
  match pauseRes with
  | .error e =>
    ([.flowStateChange mirrorName .STATUS_PAUSED false],
      .error ("failed to pause mirror: ".toList ++ e))
  | .ok _ =>
    match updateRes with
    | .error e =>
      ([.flowStateChange mirrorName .STATUS_PAUSED false,
        .flowStateChange mirrorName .STATUS_PAUSED true],
        .error ("failed to update mirror configuration: ".toList ++ e))
    | .ok _ =>
      match resumeRes with
      | .error e =>
        ([.flowStateChange mirrorName .STATUS_PAUSED false,
          .flowStateChange mirrorName .STATUS_PAUSED true,
          .flowStateChange mirrorName .STATUS_RUNNING false],
          .error ("failed to resume mirror after update: ".toList ++ e))
      | .ok _ =>
        ([.flowStateChange mirrorName .STATUS_PAUSED false,
          .flowStateChange mirrorName .STATUS_PAUSED true,
          .flowStateChange mirrorName .STATUS_RUNNING false],
          .ok ())

/-- Models `dropPeer` of cmd/peer.go: without `--force`, a confirmation
response whose lower-casing is neither `y` nor `yes` cancels the operation
(no client is created, no remote call is made, nil error); otherwise the
client is created (`newClientRes`) and the drop issued (`dropRes`). -/
def dropPeer (force : Bool) (response peerName : List Char)
    (newClientRes : Except (List Char) Unit) (dropRes : Except (List Char) Unit) :
    List RemoteCall × Except (List Char) Unit :=
  if force = false ∧ toLowerCL response ≠ "y".toList ∧ toLowerCL response ≠ "yes".toList then
    ([], .ok ())
  else
    match newClientRes with
    | .error e => ([], .error e)
    | .ok _ =>
      match dropRes with
      | .error e => ([.dropPeerReq peerName], .error ("failed to drop peer: ".toList ++ e))
      | .ok _ => ([.dropPeerReq peerName], .ok ())

/-- Models `dropMirror` of cmd/mirror.go: the same confirmation guard, then a
`FlowStateChange` to `STATUS_TERMINATED` through `Client.DropMirror`. -/
def dropMirror (force : Bool) (response mirrorName : List Char)
    (newClientRes : Except (List Char) Unit) (dropRes : Except (List Char) Unit) :
    List RemoteCall × Except (List Char) Unit :=
  if force = false ∧ toLowerCL response ≠ "y".toList ∧ toLowerCL response ≠ "yes".toList then
    ([], .ok ())
  else
    match newClientRes with
    | .error e => ([], .error e)
    | .ok _ =>
      match dropRes with
      | .error e =>
        ([.flowStateChange mirrorName .STATUS_TERMINATED false],
          .error ("failed to drop mirror: ".toList ++ e))
      | .ok _ => ([.flowStateChange mirrorName .STATUS_TERMINATED false], .ok ())

/-- Modelled from the spec: the apply-mode orchestrator of the `config apply`
command, whose implementation file is not among the repository's staged
sources (the README documents the command; spec §4.3 describes it).  Documents
are processed strictly in load order; each is translated, then submitted; the
first translation or submission failure stops the batch with that document's
error and nothing after it is attempted; documents already applied stay
applied.  Returns the documents successfully applied, the documents whose
processing was begun, and the first error. -/
def applyAll {δ ρ : Type} (translate : δ → Except (List Char) ρ)
    (submit : ρ → Except (List Char) Unit) :
    List δ → List δ × List δ × Option (List Char)
  | [] => ([], [], none)
  | d :: ds =>
    match translate d with
    | .error e => ([], [d], some e)
    | .ok req =>
      match submit req with
      | .error e => ([], [d], some e)
      | .ok _ =>
        match applyAll translate submit ds with
        | (applied, attempted, err) => (d :: applied, d :: attempted, err)

/-!
Concrete documents, trees and stores used by the witness and counterexample
theorems.
-/

/-- Empty metadata record. -/
def emptyMetadata : Metadata := ⟨[], [], []⟩

/-- Empty spec record. -/
def emptySpec : Spec := ⟨[], none, none, [], [], [], none, none, none, []⟩

/-- A Peer document of type postgres whose config carries no host, user or
database at all. -/
def fcPeerNoHost : FileConfig :=
  ⟨"v1".toList, "Peer".toList, ⟨"p1".toList, [], []⟩,
    ⟨"postgres".toList, some (.yMap []), none, [], [], [], none, none, none, []⟩⟩

/-- A document whose kind is neither Peer nor Mirror. -/
def fcBadKind : FileConfig :=
  ⟨"v1".toList, "Gadget".toList, emptyMetadata, emptySpec⟩

/-- A Peer document with an unrecognized type string. -/
def fcBadType : FileConfig :=
  ⟨"v1".toList, "Peer".toList, emptyMetadata,
    ⟨"oracle".toList, none, none, [], [], [], none, none, none, []⟩⟩

/-- One concrete table mapping. -/
def tcUsers : TableConfig :=
  ⟨"public.users".toList, "users".toList, "id".toList, ["secret".toList]⟩

/-- A Mirror document whose table list repeats the same entry twice. -/
def fcMirrorDup : FileConfig :=
  ⟨"v1".toList, "Mirror".toList, ⟨"m1".toList, [], []⟩,
    ⟨[], none, none, "src".toList, "dst".toList, [tcUsers, tcUsers], none, none, none, []⟩⟩

/-!
Substring helper lemmas: an error message built as `prefix ++ value` or
`prefix ++ value ++ suffix` contains the value.
-/

theorem isSubAt_self_append (x s : List Char) : isSubAt x (x ++ s) = true := by
  induction x with
  | nil => rfl
  | cons a as ih => simp [isSubAt, ih]

theorem hasSub_nil_needle (hay : List Char) : hasSub [] hay = true := by
  cases hay <;> simp [hasSub, isSubAt]

theorem hasSub_cons_of (needle : List Char) (c : Char) (hay : List Char)
    (h : hasSub needle hay = true) : hasSub needle (c :: hay) = true := by
  simp [hasSub, h]

theorem hasSub_append_mid (p x s : List Char) : hasSub x (p ++ (x ++ s)) = true := by
  induction p with
  | nil =>
    cases x with
    | nil => simpa using hasSub_nil_needle s
    | cons a as =>
      simp only [hasSub, Bool.or_eq_true]
      refine Or.inl ?_
      simpa using isSubAt_self_append (a :: as) s
  | cons c p ih => exact hasSub_cons_of _ _ _ ih

theorem hasSub_append_self (p x : List Char) : hasSub x (p ++ x) = true := by
  have h := hasSub_append_mid p x []
  simpa using h

/-- C4: for every document whose top-level kind is neither `Peer` nor `Mirror`
both translators fail with an error message containing the literal kind
string, and for every Peer document whose `spec.type` is not (up to ASCII
case) `postgres`, `postgresql` or `snowflake`, `ToPeerProto` fails with an
error message containing the literal type string received. -/
theorem c4_unrecognized_kind_and_type_errors :
    (∀ fc : FileConfig, fc.Kind ≠ "Peer".toList → fc.Kind ≠ "Mirror".toList →
      (∃ m, fc.ToPeerProto = .error m ∧ hasSub fc.Kind m = true) ∧
      (∃ m, fc.ToMirrorProto = .error m ∧ hasSub fc.Kind m = true)) ∧
    (∀ fc : FileConfig, fc.Kind = "Peer".toList →
      toLowerCL fc.Spec.Type' ≠ "postgres".toList →
      toLowerCL fc.Spec.Type' ≠ "postgresql".toList →
      toLowerCL fc.Spec.Type' ≠ "snowflake".toList →
      ∃ m, fc.ToPeerProto = .error m ∧ hasSub fc.Spec.Type' m = true) := by
  constructor
  · intro fc hp hm
    constructor
    · refine ⟨"config is not a Peer, got: ".toList ++ fc.Kind, ?_, ?_⟩
      · unfold FileConfig.ToPeerProto
        rw [if_pos hp]
      · exact hasSub_append_self _ _
    · refine ⟨"config is not a Mirror, got: ".toList ++ fc.Kind, ?_, ?_⟩
      · unfold FileConfig.ToMirrorProto
        rw [if_pos hm]
      · exact hasSub_append_self _ _
  · intro fc hk h1 h2 h3
    refine ⟨"unsupported peer type: ".toList ++ fc.Spec.Type', ?_, ?_⟩
    · unfold FileConfig.ToPeerProto
      rw [if_neg (by simp [hk]), if_neg (not_or.mpr ⟨h1, h2⟩), if_neg h3]
    · exact hasSub_append_self _ _

/-- C4 witness: the concrete documents `fcBadKind` (kind `Gadget`) and
`fcBadType` (Peer of type `oracle`) are rejected with messages containing
the literal strings. -/
theorem c4_witness :
    (∃ m, fcBadKind.ToPeerProto = .error m ∧ hasSub fcBadKind.Kind m = true) ∧
    (∃ m, fcBadKind.ToMirrorProto = .error m ∧ hasSub fcBadKind.Kind m = true) ∧
    (∃ m, fcBadType.ToPeerProto = .error m ∧ hasSub fcBadType.Spec.Type' m = true) := by
  have h1 := c4_unrecognized_kind_and_type_errors.1 fcBadKind (by decide) (by decide)
  have h2 := c4_unrecognized_kind_and_type_errors.2 fcBadType (by decide) (by decide)
    (by decide) (by decide)
  exact ⟨h1.1, h1.2, h2⟩

/-- C5: for every document of kind `Mirror`, translation succeeds and the
request's table-mapping list has exactly the same length and order as the
document's table list, the i-th entry copying the i-th document entry's
source, destination, partition key and excluded columns verbatim (duplicate
entries included, uninspected). -/
theorem c5_mirror_table_mappings_verbatim :
    ∀ fc : FileConfig, fc.Kind = "Mirror".toList →
    ∃ req, fc.ToMirrorProto = .ok req ∧
      req.ConnectionConfigs.TableMappings.length = fc.Spec.Tables.length ∧
      ∀ i, (hi : i < fc.Spec.Tables.length) →
        ∃ tm, req.ConnectionConfigs.TableMappings[i]? = some tm ∧
          tm.SourceTableIdentifier = (fc.Spec.Tables[i]).Source ∧
          tm.DestinationTableIdentifier = (fc.Spec.Tables[i]).Destination ∧
          tm.PartitionKey = (fc.Spec.Tables[i]).PartitionKey ∧
          tm.Exclude = (fc.Spec.Tables[i]).ExcludeColumns := by
  intro fc hk
  unfold FileConfig.ToMirrorProto
  rw [if_neg (by simp [hk])]
  refine ⟨_, rfl, by simp, ?_⟩
  intro i hi
  refine ⟨convertTableMapping (fc.Spec.Tables[i]), ?_, rfl, rfl, rfl, rfl⟩
  simp [List.getElem?_eq_getElem hi]

/-- C5 witness: the concrete Mirror document `fcMirrorDup`, whose table list
holds the same entry twice, translates to a request with both duplicate
entries in place. -/
theorem c5_witness :
    ∃ req, fcMirrorDup.ToMirrorProto = .ok req ∧
      req.ConnectionConfigs.TableMappings.length = fcMirrorDup.Spec.Tables.length ∧
      ∀ i, (hi : i < fcMirrorDup.Spec.Tables.length) →
        ∃ tm, req.ConnectionConfigs.TableMappings[i]? = some tm ∧
          tm.SourceTableIdentifier = (fcMirrorDup.Spec.Tables[i]).Source ∧
          tm.DestinationTableIdentifier = (fcMirrorDup.Spec.Tables[i]).Destination ∧
          tm.PartitionKey = (fcMirrorDup.Spec.Tables[i]).PartitionKey ∧
          tm.Exclude = (fcMirrorDup.Spec.Tables[i]).ExcludeColumns :=
  c5_mirror_table_mappings_verbatim fcMirrorDup rfl

/-!
Claim C3.  The postgres document translator performs no required-field
validation: a Peer document with missing or empty host/user/database
translates successfully, carrying the empty values into the request.
-/

/-- Whether a fallible computation succeeded. -/
def exceptIsOk {ε α : Type} : Except ε α → Bool
  | .ok _ => true
  | .error _ => false

/-- The config mapping is shaped as `PostgresConfig` expects (every present
key has the right scalar type), so the YAML round trip raises no error. -/
def pgShapeOk (m : List (List Char × YamlVal)) : Bool :=
  exceptIsOk (yamlStrField m ("host".toList)) &&
  exceptIsOk (yamlIntField m ("port".toList)) &&
  exceptIsOk (yamlStrField m ("user".toList)) &&
  exceptIsOk (yamlStrField m ("password".toList)) &&
  exceptIsOk (yamlStrField m ("database".toList)) &&
  exceptIsOk (yamlStrField m ("tls_host".toList)) &&
  exceptIsOk (yamlStrField m ("metadata_schema".toList))

theorem exceptIsOk_iff {ε α : Type} (e : Except ε α) :
    exceptIsOk e = true ↔ ∃ v, e = .ok v := by
  cases e <;> simp [exceptIsOk]

/-- C3 (amended): for every relational (postgres) Peer document whose config
mapping is well-shaped — the required sub-fields may be missing or empty —
`ToPeerProto` succeeds, and the request's host, user and database are exactly
the looked-up values (the empty string when missing): no `ValidationError` is
raised by the document translator. -/
theorem c3_postgres_missing_fields_translate_unvalidated :
    ∀ fc : FileConfig, fc.Kind = "Peer".toList →
    (toLowerCL fc.Spec.Type' = "postgres".toList ∨
      toLowerCL fc.Spec.Type' = "postgresql".toList) →
    ∀ m, fc.Spec.Config = some (.yMap m) → pgShapeOk m = true →
    ∃ cfg, fc.ToPeerProto = .ok ⟨fc.Metadata.Name, .POSTGRES, some (.postgresConfig cfg)⟩ ∧
      yamlStrField m ("host".toList) = .ok cfg.Host ∧
      yamlStrField m ("user".toList) = .ok cfg.User ∧
      yamlStrField m ("database".toList) = .ok cfg.Database := by
  intro fc hk hty m hcfg hshape
  simp only [pgShapeOk, Bool.and_eq_true] at hshape
  obtain ⟨⟨⟨⟨⟨⟨s1, s2⟩, s3⟩, s4⟩, s5⟩, s6⟩, s7⟩ := hshape
  obtain ⟨vh, hh⟩ := (exceptIsOk_iff _).mp s1
  obtain ⟨vp, hp⟩ := (exceptIsOk_iff _).mp s2
  obtain ⟨vu, hu⟩ := (exceptIsOk_iff _).mp s3
  obtain ⟨vw, hw⟩ := (exceptIsOk_iff _).mp s4
  obtain ⟨vd, hd⟩ := (exceptIsOk_iff _).mp s5
  obtain ⟨vt, ht⟩ := (exceptIsOk_iff _).mp s6
  obtain ⟨vm, hm⟩ := (exceptIsOk_iff _).mp s7
  have hconv : convertToPostgresConfig fc.Spec.Config =
      .ok ⟨vh, toUint32 vp, vu, vw, vd, vt, if vm.isEmpty then none else some vm⟩ := by
    rw [hcfg]
    simp only [convertToPostgresConfig]
    rw [hh, hp, hu, hw, hd, ht, hm]
    rfl
  refine ⟨⟨vh, toUint32 vp, vu, vw, vd, vt, if vm.isEmpty then none else some vm⟩, ?_, ?_, ?_, ?_⟩
  · unfold FileConfig.ToPeerProto
    rw [if_neg (by simp [hk]), if_pos hty, hconv]
  · exact hh
  · exact hu
  · exact hd

/-- C3 counterexample: the concrete postgres Peer document `fcPeerNoHost`,
whose config carries no host, user or database, translates successfully with
empty strings in the request — it does not fail with a `ValidationError` as
the claim states. -/
theorem c3_counterexample :
    fcPeerNoHost.ToPeerProto =
      .ok ⟨"p1".toList, .POSTGRES, some (.postgresConfig ⟨[], 0, [], [], [], [], none⟩)⟩ ∧
    ∀ e, fcPeerNoHost.ToPeerProto ≠ .error e := by
  constructor
  · rfl
  · intro e h
    rw [show fcPeerNoHost.ToPeerProto =
      .ok ⟨"p1".toList, .POSTGRES, some (.postgresConfig ⟨[], 0, [], [], [], [], none⟩)⟩ from rfl] at h
    exact Except.noConfusion h

/-- C3 witness: the amended theorem applied at `fcPeerNoHost`. -/
theorem c3_witness :
    ∃ cfg, fcPeerNoHost.ToPeerProto =
        .ok ⟨fcPeerNoHost.Metadata.Name, .POSTGRES, some (.postgresConfig cfg)⟩ ∧
      yamlStrField [] ("host".toList) = .ok cfg.Host ∧
      yamlStrField [] ("user".toList) = .ok cfg.User ∧
      yamlStrField [] ("database".toList) = .ok cfg.Database :=
  c3_postgres_missing_fields_translate_unvalidated fcPeerNoHost rfl (Or.inl rfl) [] rfl rfl

/-!
Claims C7, C9, C10 and C6.
-/

/-- Config file store of the C7 scenario: host set to `file-host`. -/
def fileStoreEx : List (List Char × ConfigValue) :=
  [("peerdb_host".toList, .vStr ("file-host".toList))]

/-- Environment store of the C7 scenario: the prefixed variable set to
`env-host`. -/
def envStoreEx : List (List Char × ConfigValue) :=
  [("MIRROR_CLI_PEERDB_HOST".toList, .vStr ("env-host".toList))]

/-- C7: settings are merged in ascending precedence defaults < file <
environment (with the fixed `MIRROR_CLI` name prefix): a prefixed environment
variable wins over the file entry, the file entry wins over the default, and
with neither source set the built-in defaults (host `localhost`, port `8112`,
TLS off, empty credentials) survive. -/
theorem c7_settings_precedence :
    (∀ file env h, envGet env (viperEnvKey ("peerdb_host".toList)) = some (.vStr h) →
      (LoadConfig file env).PeerDBHost = h) ∧
    (∀ file env h, envGet env (viperEnvKey ("peerdb_host".toList)) = none →
      envGet file ("peerdb_host".toList) = some (.vStr h) →
      (LoadConfig file env).PeerDBHost = h) ∧
    (∀ file env, envGet env (viperEnvKey ("peerdb_host".toList)) = none →
      envGet file ("peerdb_host".toList) = none →
      (LoadConfig file env).PeerDBHost = "localhost".toList) ∧
    LoadConfig [] [] = DefaultConfig ∧
    DefaultConfig = ⟨"localhost".toList, 8112, false, [], []⟩ := by
  refine ⟨?_, ?_, ?_, rfl, rfl⟩
  · intro file env h he
    show unmarshalStr (viperGet file env ("peerdb_host".toList)) DefaultConfig.PeerDBHost = h
    unfold viperGet
    rw [he]
    rfl
  · intro file env h he hf
    show unmarshalStr (viperGet file env ("peerdb_host".toList)) DefaultConfig.PeerDBHost = h
    unfold viperGet
    rw [he, hf]
    rfl
  · intro file env he hf
    show unmarshalStr (viperGet file env ("peerdb_host".toList)) DefaultConfig.PeerDBHost =
      "localhost".toList
    unfold viperGet
    rw [he, hf]
    rfl

/-- C7 witness: with the default `localhost`, the file setting `file-host`
and the environment override `env-host`, the loaded host is `env-host`. -/
theorem c7_witness :
    (LoadConfig fileStoreEx envStoreEx).PeerDBHost = "env-host".toList :=
  c7_settings_precedence.1 fileStoreEx envStoreEx ("env-host".toList) rfl

/-- C9: invoked without the force flag, `dropPeer` and `dropMirror` treat any
confirmation response whose lower-casing is neither `y` nor `yes` as a
cancellation: no remote call is traced and the result is a nil error,
whatever the client and remote outcomes would have been. -/
theorem c9_drop_declined_confirmation_makes_no_call :
    ∀ (response peerName mirrorName : List Char)
      (nc1 nc2 dr1 dr2 : Except (List Char) Unit),
      toLowerCL response ≠ "y".toList → toLowerCL response ≠ "yes".toList →
      dropPeer false response peerName nc1 dr1 = ([], .ok ()) ∧
      dropMirror false response mirrorName nc2 dr2 = ([], .ok ()) := by
  intro response peerName mirrorName nc1 nc2 dr1 dr2 hy hyes
  constructor
  · unfold dropPeer
    rw [if_pos ⟨rfl, hy, hyes⟩]
  · unfold dropMirror
    rw [if_pos ⟨rfl, hy, hyes⟩]

/-- C9 witness: the concrete response `n` cancels both drops with a nil
error and an empty call trace, even though the remote drop would have
failed. -/
theorem c9_witness :
    dropPeer false ("n".toList) ("p1".toList) (.ok ()) (.error ("boom".toList)) = ([], .ok ()) ∧
    dropMirror false ("n".toList) ("m1".toList) (.ok ()) (.error ("boom".toList)) = ([], .ok ()) :=
  c9_drop_declined_confirmation_makes_no_call ("n".toList) ("p1".toList) ("m1".toList)
    (.ok ()) (.ok ()) (.error ("boom".toList)) (.error ("boom".toList))
    (by decide) (by decide)

/-- C10: `UpdateMirror` issues exactly three remote calls in order — pause,
configuration update, resume — stopping with an error at the first call that
fails; a successful update always ends with the resume call requesting the
running state, regardless of the mirror's prior state. -/
theorem c10_update_mirror_pause_update_resume :
    ∀ (name : List Char) (p u r : Except (List Char) Unit),
      ((UpdateMirror name p u r).2 = .ok () →
        (UpdateMirror name p u r).1 =
          [.flowStateChange name .STATUS_PAUSED false,
            .flowStateChange name .STATUS_PAUSED true,
            .flowStateChange name .STATUS_RUNNING false]) ∧
      (∀ e, p = .error e →
        UpdateMirror name p u r =
          ([.flowStateChange name .STATUS_PAUSED false],
            .error ("failed to pause mirror: ".toList ++ e))) ∧
      (∀ e, p = .ok () → u = .error e →
        UpdateMirror name p u r =
          ([.flowStateChange name .STATUS_PAUSED false,
            .flowStateChange name .STATUS_PAUSED true],
            .error ("failed to update mirror configuration: ".toList ++ e))) ∧
      (∀ e, p = .ok () → u = .ok () → r = .error e →
        UpdateMirror name p u r =
          ([.flowStateChange name .STATUS_PAUSED false,
            .flowStateChange name .STATUS_PAUSED true,
            .flowStateChange name .STATUS_RUNNING false],
            .error ("failed to resume mirror after update: ".toList ++ e))) ∧
      (p = .ok () → u = .ok () → r = .ok () →
        UpdateMirror name p u r =
          ([.flowStateChange name .STATUS_PAUSED false,
            .flowStateChange name .STATUS_PAUSED true,
            .flowStateChange name .STATUS_RUNNING false], .ok ())) := by
  intro name p u r
  refine ⟨?_, ?_, ?_, ?_, ?_⟩
  · intro h
    cases p with
    | error e => simp [UpdateMirror] at h
    | ok v =>
      cases v
      cases u with
      | error e => simp [UpdateMirror] at h
      | ok v =>
        cases v
        cases r with
        | error e => simp [UpdateMirror] at h
        | ok v => cases v; rfl
  · intro e he
    subst he
    rfl
  · intro e hp hu
    subst hp
    subst hu
    rfl
  · intro e hp hu hr
    subst hp
    subst hu
    subst hr
    rfl
  · intro hp hu hr
    subst hp
    subst hu
    subst hr
    rfl

/-- C10 witness: with every remote call succeeding, the update of the
concrete mirror `m1` issues precisely pause, update and resume, the final
call requesting the running state. -/
theorem c10_witness :
    UpdateMirror ("m1".toList) (.ok ()) (.ok ()) (.ok ()) =
      ([.flowStateChange ("m1".toList) .STATUS_PAUSED false,
        .flowStateChange ("m1".toList) .STATUS_PAUSED true,
        .flowStateChange ("m1".toList) .STATUS_RUNNING false], .ok ()) :=
  (c10_update_mirror_pause_update_resume ("m1".toList)
    (.ok ()) (.ok ()) (.ok ())).2.2.2.2 rfl rfl rfl

/-- C6: in apply mode, documents are processed strictly in load order: the
applied documents are always a prefix of the batch (no rollback), and in a
batch of three where the second fails remote submission, exactly the first is
applied, the error is the second document's, and the third is never
attempted. -/
theorem c6_apply_stops_at_first_failure :
    (∀ (δ ρ : Type) (tr : δ → Except (List Char) ρ) (sub : ρ → Except (List Char) Unit)
      (ds : List δ), ∃ rest, ds = (applyAll tr sub ds).1 ++ rest) ∧
    (∀ (δ ρ : Type) (tr : δ → Except (List Char) ρ) (sub : ρ → Except (List Char) Unit)
      (d1 d2 d3 : δ) (r1 r2 : ρ) (e : List Char),
      tr d1 = .ok r1 → tr d2 = .ok r2 → sub r1 = .ok () → sub r2 = .error e →
      applyAll tr sub [d1, d2, d3] = ([d1], [d1, d2], some e)) := by
  constructor
  · intro δ ρ tr sub ds
    induction ds with
    | nil => exact ⟨[], rfl⟩
    | cons d ds ih =>
      cases htr : tr d with
      | error e => exact ⟨d :: ds, by simp [applyAll, htr]⟩
      | ok req =>
        cases hsub : sub req with
        | error e => exact ⟨d :: ds, by simp [applyAll, htr, hsub]⟩
        | ok v =>
          cases v
          obtain ⟨rest, hrest⟩ := ih
          refine ⟨rest, ?_⟩
          simp only [applyAll, htr, hsub]
          calc d :: ds = d :: ((applyAll tr sub ds).1 ++ rest) := by rw [← hrest]
            _ = (d :: (applyAll tr sub ds).1) ++ rest := rfl
  · intro δ ρ tr sub d1 d2 d3 r1 r2 e h1 h2 h3 h4
    simp [applyAll, h1, h2, h3, h4]

/-- Translator of the C6 witness scenario: every document translates. -/
def trNat : Nat → Except (List Char) Nat := fun n => .ok n

/-- Submitter of the C6 witness scenario: document 2 fails remotely. -/
def subNat : Nat → Except (List Char) Unit :=
  fun n => if n = 2 then .error ("remote".toList) else .ok ()

/-- C6 witness: in the batch `[1, 2, 3]` where 2 fails remote submission,
exactly document 1 is applied, the error is document 2's, and document 3 is
never attempted. -/
theorem c6_witness :
    applyAll trNat subNat [1, 2, 3] = ([1], [1, 2], some ("remote".toList)) :=
  c6_apply_stops_at_first_failure.2 Nat Nat trNat subNat 1 2 3 1 2 ("remote".toList)
    rfl rfl rfl rfl

/-!
Claims C1 and C8: the semantics of `os.ExpandEnv` on placeholder-free text
and on brace-delimited references.
-/

theorem expand_of_no_dollar (m : List Char → List Char) (t : List Char) :
    '$' ∉ t → expand m t = t := by
  induction t with
  | nil => intro _; simp [expand]
  | cons c rest ih =>
    intro h
    rw [List.mem_cons, not_or] at h
    have hc : ¬(c = '$') := fun e => h.1 e.symm
    simp only [expand]
    rw [if_neg (by simp [hc]), ih h.2]

theorem expand_append_of_no_dollar (m : List Char → List Char) (p q : List Char) :
    '$' ∉ p → expand m (p ++ q) = p ++ expand m q := by
  induction p with
  | nil => intro _; simp
  | cons c rest ih =>
    intro h
    rw [List.mem_cons, not_or] at h
    have hc : ¬(c = '$') := fun e => h.1 e.symm
    rw [List.cons_append]
    simp only [expand]
    rw [if_neg (by simp [hc]), ih h.2]
    rfl

theorem takeUntilBrace_no_brace (s : List Char) (name : List Char) :
    '\x7d' ∉ name → takeUntilBrace (name ++ '\x7d' :: s) = some name := by
  induction name with
  | nil => intro _; simp [takeUntilBrace]
  | cons c rest ih =>
    intro h
    rw [List.mem_cons, not_or] at h
    have hc : ¬(c = '\x7d') := fun e => h.1 e.symm
    rw [List.cons_append]
    simp only [takeUntilBrace]
    rw [if_neg hc, ih h.2]
    rfl

theorem getShellName_braced (name s : List Char) (hne : name ≠ [])
    (hb : '\x7d' ∉ name) :
    getShellName ('\x7b' :: (name ++ '\x7d' :: s)) = (name, name.length + 2) := by
  cases name with
  | nil => exact absurd rfl hne
  | cons c rest =>
    have hc : ¬(c = '\x7d') := fun e => hb (by rw [e]; exact List.mem_cons_self _ _)
    have ht : takeUntilBrace ((c :: rest) ++ '\x7d' :: s) = some (c :: rest) :=
      takeUntilBrace_no_brace s _ hb
    simp only [List.cons_append] at ht
    cases rest with
    | nil =>
      cases hsp : isShellSpecialVar c with
      | true => simp [getShellName, hsp]
      | false => simp [getShellName, hsp, braceName, takeUntilBrace, hc]
    | cons r rest' =>
      have hr : ¬(r = '\x7d') := fun e =>
        hb (by rw [e]; exact List.mem_cons_of_mem _ (List.mem_cons_self _ _))
      have ht2 : takeUntilBrace (c :: r :: (rest' ++ '\x7d' :: s)) = some (c :: r :: rest') := ht
      simp [getShellName, braceName, hr, ht2]

theorem drop_name_brace (name s : List Char) :
    (name ++ '\x7d' :: s).drop (name.length + 1) = s := by
  induction name with
  | nil => simp
  | cons c rest ih => simpa using ih

theorem expand_cons_eq (m : List Char → List Char) (c : Char) (rest : List Char) :
    expand m (c :: rest) =
      if c = '$' && !rest.isEmpty then
        if (getShellName rest).1.isEmpty && (getShellName rest).2 > 0 then
          expand m (rest.drop (getShellName rest).2)
        else if (getShellName rest).1.isEmpty then c :: expand m rest
        else m (getShellName rest).1 ++ expand m (rest.drop (getShellName rest).2)
      else c :: expand m rest := by
  simp only [expand]

theorem expand_braced_ref (m : List Char → List Char) (name s : List Char)
    (hne : name ≠ []) (hb : '\x7d' ∉ name) :
    expand m ('$' :: '\x7b' :: (name ++ '\x7d' :: s)) = m name ++ expand m s := by
  rw [expand_cons_eq, getShellName_braced name s hne hb]
  have hemp : name.isEmpty = false := by
    cases name with
    | nil => exact absurd rfl hne
    | cons a b => rfl
  have hdrop : ('\x7b' :: (name ++ '\x7d' :: s)).drop (name.length + 2) = s := by
    have h2 : name.length + 2 = name.length + 1 + 1 := rfl
    rw [h2, List.drop_succ_cons, drop_name_brace]
  simp [hemp, hdrop]

/-- C1 (amended): loading a file interpolates the raw text with `os.ExpandEnv`
before YAML parsing, and the interpolation replaces each brace-delimited
placeholder whose name is bound in the environment by its value, and each one
whose name is unbound by the EMPTY STRING — the placeholder is deleted from
the text, not left as literal characters (`os.Getenv` of an unbound name is
empty, and `os.Expand` splices the mapping's result in unconditionally). -/
theorem c1_interpolation_replaces_or_deletes_placeholder :
    (∀ parse env data, LoadConfigFile parse env data = parse (ExpandEnv env data)) ∧
    (∀ (env : List (List Char × List Char)) (p name s : List Char),
      '$' ∉ p → name ≠ [] → '\x7d' ∉ name →
      ExpandEnv env (p ++ '$' :: '\x7b' :: (name ++ '\x7d' :: s)) =
        p ++ ((envGet env name).getD [] ++ ExpandEnv env s)) := by
  constructor
  · intro parse env data
    rfl
  · intro env p name s hp hne hb
    unfold ExpandEnv
    rw [expand_append_of_no_dollar _ p _ hp, expand_braced_ref _ name s hne hb]

/-- C1 counterexample: with `FOO` unbound, interpolating the exact text
`$\x7bFOO\x7d` yields the empty string — the unresolved placeholder is
deleted, not left as the literal characters the claim states. -/
theorem c1_counterexample :
    ExpandEnv [] ("$\x7bFOO\x7d".toList) = [] ∧ "$\x7bFOO\x7d".toList ≠ ([] : List Char) := by
  constructor
  · simp [ExpandEnv, expand, getShellName, braceName, takeUntilBrace, envGet,
      isShellSpecialVar, scanAlphaNum]
  · decide

/-- C1 witness: a bound placeholder in the middle of surrounding text is
replaced by its value. -/
theorem c1_witness :
    ExpandEnv [("FOO".toList, "bar".toList)]
        ("x-".toList ++ '$' :: '\x7b' :: ("FOO".toList ++ '\x7d' :: "tail".toList)) =
      "x-".toList ++ ("bar".toList ++
        ExpandEnv [("FOO".toList, "bar".toList)] ("tail".toList)) :=
  c1_interpolation_replaces_or_deletes_placeholder.2
    [("FOO".toList, "bar".toList)] ("x-".toList) ("FOO".toList) ("tail".toList)
    (by decide) (by decide) (by decide)

/-- C8 (amended): environment-variable interpolation is the identity on every
text that contains no dollar sign at all (the code also expands bare `$NAME`
references, so a text free of the `$\x7b...\x7d` pattern alone is not
necessarily fixed). -/
theorem c8_no_dollar_interpolation_identity :
    ∀ (env : List (List Char × List Char)) (t : List Char),
      '$' ∉ t → ExpandEnv env t = t :=
  fun env t h => expand_of_no_dollar _ t h

/-- C8 counterexample: the text `$a` contains no `$\x7b...\x7d` placeholder
pattern, yet interpolation under the empty environment erases it, so
interpolation is not the identity on all `$\x7b...\x7d`-free text as the
claim states. -/
theorem c8_counterexample :
    hasSub ("$\x7b".toList) ("$a".toList) = false ∧
    ExpandEnv [] ("$a".toList) ≠ "$a".toList := by
  refine ⟨by decide, ?_⟩
  have h : ExpandEnv [] ("$a".toList) = [] := by
    simp [ExpandEnv, expand, getShellName, braceName, takeUntilBrace, envGet,
      isShellSpecialVar, isAlphaNum, scanAlphaNum]
  rw [h]
  decide

/-- C8 witness: interpolation leaves the dollar-free text `abc` unchanged. -/
theorem c8_witness : ExpandEnv [] ("abc".toList) = "abc".toList :=
  c8_no_dollar_interpolation_identity [] ("abc".toList) (by decide)

/-!
Claim C2.  Properties of the entry sort, of the canonical form, and of the
walk.
-/

theorem strLE_total (a b : List Char) : strLE a b = true ∨ strLE b a = true := by
  induction a generalizing b with
  | nil => left; rfl
  | cons x xs ih =>
    cases b with
    | nil => right; rfl
    | cons y ys =>
      simp only [strLE]
      by_cases hxy : x < y
      · left; rw [if_pos hxy]
      · by_cases hyx : y < x
        · right; rw [if_pos hyx]
        · rw [if_neg hxy, if_neg hyx, if_neg hyx, if_neg hxy]
          exact ih ys

theorem strLE_trans {a b c : List Char} (h1 : strLE a b = true) (h2 : strLE b c = true) :
    strLE a c = true := by
  induction a generalizing b c with
  | nil => rfl
  | cons x xs ih =>
    cases b with
    | nil => simp [strLE] at h1
    | cons y ys =>
      cases c with
      | nil => simp [strLE] at h2
      | cons z zs =>
        simp only [strLE] at h1 h2 ⊢
        by_cases hxy : x < y
        · by_cases hyz : y < z
          · rw [if_pos (lt_trans hxy hyz)]
          · by_cases hzy : z < y
            · rw [if_neg hyz, if_pos hzy] at h2
              exact absurd h2 (by simp)
            · have eyz : y = z := le_antisymm (le_of_not_lt hzy) (le_of_not_lt hyz)
              rw [if_pos (eyz ▸ hxy)]
        · by_cases hyx : y < x
          · rw [if_neg hxy, if_pos hyx] at h1
            exact absurd h1 (by simp)
          · have exy : x = y := le_antisymm (le_of_not_lt hyx) (le_of_not_lt hxy)
            rw [if_neg hxy, if_neg hyx] at h1
            by_cases hyz : y < z
            · rw [if_pos (exy ▸ hyz)]
            · by_cases hzy : z < y
              · rw [if_neg hyz, if_pos hzy] at h2
                exact absurd h2 (by simp)
              · have eyz : y = z := le_antisymm (le_of_not_lt hzy) (le_of_not_lt hyz)
                rw [if_neg hyz, if_neg hzy] at h2
                have exz : x = z := exy.trans eyz
                rw [if_neg (by rw [exz]; exact lt_irrefl z),
                  if_neg (by rw [exz]; exact lt_irrefl z)]
                exact ih h1 h2

theorem insertSorted_perm (a : List Char × FSTree) (l : List (List Char × FSTree)) :
    (insertSorted a l).Perm (a :: l) := by
  induction l with
  | nil => exact List.Perm.refl _
  | cons b rest ih =>
    simp only [insertSorted]
    split
    · exact List.Perm.refl _
    · exact (ih.cons b).trans (List.Perm.swap a b rest)

theorem sortEntries_perm (l : List (List Char × FSTree)) :
    (sortEntries l).Perm l := by
  induction l with
  | nil => exact List.Perm.refl _
  | cons a rest ih =>
    exact (insertSorted_perm a (sortEntries rest)).trans (ih.cons a)

theorem pairwise_insertSorted (a : List Char × FSTree) (l : List (List Char × FSTree))
    (h : l.Pairwise (fun x y => entryLE x y = true)) :
    (insertSorted a l).Pairwise (fun x y => entryLE x y = true) := by
  induction l with
  | nil => simp [insertSorted]
  | cons b rest ih =>
    obtain ⟨hb, hrest⟩ := List.pairwise_cons.mp h
    simp only [insertSorted]
    split
    · rename_i hab
      refine List.pairwise_cons.mpr ⟨?_, h⟩
      intro x hx
      rcases List.mem_cons.mp hx with he | hx'
      · rw [he]; exact hab
      · exact strLE_trans hab (hb x hx')
    · rename_i hab
      have hba : entryLE b a = true := by
        rcases strLE_total a.1 b.1 with h1 | h2
        · exact absurd h1 hab
        · exact h2
      refine List.pairwise_cons.mpr ⟨?_, ih hrest⟩
      intro x hx
      have hx2 : x ∈ a :: rest := (insertSorted_perm a rest).mem_iff.mp hx
      rcases List.mem_cons.mp hx2 with he | hx'
      · rw [he]; exact hba
      · exact hb x hx'

theorem pairwise_sortEntries (l : List (List Char × FSTree)) :
    (sortEntries l).Pairwise (fun x y => entryLE x y = true) := by
  induction l with
  | nil => simp [sortEntries]
  | cons a rest ih => exact pairwise_insertSorted a (sortEntries rest) ih

theorem insertSorted_eq_cons (a : List Char × FSTree) (l : List (List Char × FSTree))
    (h : ∀ x ∈ l, entryLE a x = true) : insertSorted a l = a :: l := by
  cases l with
  | nil => rfl
  | cons b rest => simp [insertSorted, h b (List.mem_cons_self _ _)]

theorem sortEntries_of_pairwise (l : List (List Char × FSTree))
    (h : l.Pairwise (fun x y => entryLE x y = true)) : sortEntries l = l := by
  induction l with
  | nil => rfl
  | cons a rest ih =>
    obtain ⟨ha, hrest⟩ := List.pairwise_cons.mp h
    simp only [sortEntries]
    rw [ih hrest, insertSorted_eq_cons a rest ha]

theorem sortEntries_idem (l : List (List Char × FSTree)) :
    sortEntries (sortEntries l) = sortEntries l :=
  sortEntries_of_pairwise _ (pairwise_sortEntries l)

theorem canonEntries_insertSorted (a : List Char × FSTree)
    (l : List (List Char × FSTree)) :
    canonEntries (insertSorted a l) = insertSorted (a.1, canon a.2) (canonEntries l) := by
  induction l with
  | nil => rfl
  | cons b rest ih =>
    simp only [insertSorted, canonEntries]
    by_cases hab : entryLE a b = true
    · rw [if_pos hab, if_pos (show entryLE (a.1, canon a.2) (b.1, canon b.2) = true from hab)]
      rfl
    · rw [if_neg hab, if_neg (show ¬entryLE (a.1, canon a.2) (b.1, canon b.2) = true from hab)]
      simp only [canonEntries]
      rw [ih]

theorem canonEntries_sortEntries (l : List (List Char × FSTree)) :
    canonEntries (sortEntries l) = sortEntries (canonEntries l) := by
  induction l with
  | nil => rfl
  | cons a rest ih =>
    simp only [sortEntries, canonEntries]
    rw [canonEntries_insertSorted, ih]

theorem countMatchingList_eq_sum (p : List Char) (l : List (List Char × FSTree)) :
    countMatchingList p l = (l.map (fun e => countMatching (childPath p e.1) e.2)).sum := by
  induction l with
  | nil => rfl
  | cons e rest ih => simp [countMatchingList, ih]

theorem countMatchingList_perm (p : List Char) {l1 l2 : List (List Char × FSTree)}
    (hp : l1.Perm l2) : countMatchingList p l1 = countMatchingList p l2 := by
  rw [countMatchingList_eq_sum, countMatchingList_eq_sum]
  exact (hp.map _).sum_eq

mutual
theorem walkTree_canon (load : List Char → List Char → Except (List Char) FileConfig)
    (p : List Char) : (t : FSTree) →
    walkTree load p (canon t) = walkTree load p t
  | .file c => rfl
  | .dir es => by
    simp only [canon, walkTree]
    rw [sortEntries_of_pairwise _ (pairwise_sortEntries (canonEntries es)),
      ← canonEntries_sortEntries]
    exact walkEntries_canon load p (sortEntries es)
termination_by t => sizeOf t
decreasing_by
  simp [sortEntries_sizeOf] <;> omega

theorem walkEntries_canon (load : List Char → List Char → Except (List Char) FileConfig)
    (p : List Char) : (l : List (List Char × FSTree)) →
    walkEntries load p (canonEntries l) = walkEntries load p l
  | [] => rfl
  | (n, t) :: rest => by
    show walkEntries load p ((n, canon t) :: canonEntries rest) = _
    simp only [walkEntries]
    rw [walkTree_canon load (childPath p n) t, walkEntries_canon load p rest]
termination_by l => sizeOf l
decreasing_by
  · simp <;> omega
  · simp <;> omega
end

mutual
theorem walkTree_ok_of_all_ok (load : List Char → List Char → Except (List Char) FileConfig)
    (p : List Char) : (t : FSTree) →
    (∀ p' c, hasFile p t p' c → pathMatches p' = true → ∃ cfg, load p' c = .ok cfg) →
    ∃ cfgs, walkTree load p t = .ok cfgs ∧ cfgs.length = countMatching p t
  | .file c, H => by
    by_cases hm : pathMatches p = true
    · obtain ⟨cfg, hcfg⟩ := H p c (hasFile.here p c) hm
      refine ⟨[cfg], ?_, ?_⟩
      · simp only [walkTree]
        rw [if_pos hm, hcfg]
      · simp only [countMatching]
        rw [if_pos hm]
        rfl
    · refine ⟨[], ?_, ?_⟩
      · simp only [walkTree]
        rw [if_neg hm]
      · simp only [countMatching]
        rw [if_neg hm]
        rfl
  | .dir es, H => by
    have Hl : ∀ e ∈ sortEntries es, ∀ p' c, hasFile (childPath p e.1) e.2 p' c →
        pathMatches p' = true → ∃ cfg, load p' c = .ok cfg := by
      intro e he p' c hf hm
      exact H p' c (hasFile.there e ((sortEntries_perm es).mem_iff.mp he) hf) hm
    obtain ⟨cfgs, h1, h2⟩ := walkEntries_ok_of_all_ok load p (sortEntries es) Hl
    refine ⟨cfgs, ?_, ?_⟩
    · simp only [walkTree]
      exact h1
    · rw [h2]
      exact countMatchingList_perm p (sortEntries_perm es)
termination_by t => sizeOf t
decreasing_by
  simp [sortEntries_sizeOf] <;> omega

theorem walkEntries_ok_of_all_ok (load : List Char → List Char → Except (List Char) FileConfig)
    (p : List Char) : (l : List (List Char × FSTree)) →
    (∀ e ∈ l, ∀ p' c, hasFile (childPath p e.1) e.2 p' c → pathMatches p' = true →
      ∃ cfg, load p' c = .ok cfg) →
    ∃ cfgs, walkEntries load p l = .ok cfgs ∧ cfgs.length = countMatchingList p l
  | [], _ => ⟨[], by simp only [walkEntries], by simp only [countMatchingList]; rfl⟩
  | (n, t) :: rest, H => by
    obtain ⟨cfgs1, h1, hl1⟩ := walkTree_ok_of_all_ok load (childPath p n) t
      (fun p' c hf hm => H (n, t) (List.mem_cons_self _ _) p' c hf hm)
    obtain ⟨cfgs2, h2, hl2⟩ := walkEntries_ok_of_all_ok load p rest
      (fun e' he' => H e' (List.mem_cons_of_mem _ he'))
    refine ⟨cfgs1 ++ cfgs2, ?_, ?_⟩
    · simp only [walkEntries]
      rw [h1, h2]
    · simp only [countMatchingList, List.length_append, hl1, hl2]
termination_by l => sizeOf l
decreasing_by
  · simp <;> omega
  · simp <;> omega
end

mutual
theorem walkTree_ok_all (load : List Char → List Char → Except (List Char) FileConfig)
    (p : List Char) : (t : FSTree) → (cfgs : List FileConfig) →
    walkTree load p t = .ok cfgs →
    ∀ p' c, hasFile p t p' c → pathMatches p' = true → ∃ cfg, load p' c = .ok cfg
  | .file c0, cfgs, h => by
    intro p' c hf hm
    cases hf
    simp only [walkTree] at h
    rw [if_pos hm] at h
    cases hl : load p c0 with
    | error e => rw [hl] at h; exact Except.noConfusion h
    | ok cfg => exact ⟨cfg, rfl⟩
  | .dir es, cfgs, h => by
    intro p' c hf hm
    cases hf with
    | there e he hsub =>
      simp only [walkTree] at h
      exact walkEntries_ok_all load p (sortEntries es) cfgs h e
        ((sortEntries_perm es).mem_iff.mpr he) p' c hsub hm
termination_by t => sizeOf t
decreasing_by
  simp [sortEntries_sizeOf] <;> omega

theorem walkEntries_ok_all (load : List Char → List Char → Except (List Char) FileConfig)
    (p : List Char) : (l : List (List Char × FSTree)) → (cfgs : List FileConfig) →
    walkEntries load p l = .ok cfgs →
    ∀ e ∈ l, ∀ p' c, hasFile (childPath p e.1) e.2 p' c → pathMatches p' = true →
      ∃ cfg, load p' c = .ok cfg
  | [], _, _ => by
    intro e he
    cases he
  | (n, t) :: rest, cfgs, h => by
    intro e he p' c hf hm
    simp only [walkEntries] at h
    cases h1 : walkTree load (childPath p n) t with
    | error err => rw [h1] at h; exact Except.noConfusion h
    | ok cfgs1 =>
      rw [h1] at h
      cases h2 : walkEntries load p rest with
      | error err => rw [h2] at h; exact Except.noConfusion h
      | ok cfgs2 =>
        rcases List.mem_cons.mp he with he0 | herest
        · subst he0
          exact walkTree_ok_all load (childPath p n) t cfgs1 h1 p' c hf hm
        · exact walkEntries_ok_all load p rest cfgs2 h2 e herest p' c hf hm
termination_by l => sizeOf l
decreasing_by
  · simp <;> omega
  · simp <;> omega
end

mutual
theorem walkTree_error_from (load : List Char → List Char → Except (List Char) FileConfig)
    (p : List Char) : (t : FSTree) → (err : List Char) →
    walkTree load p t = .error err →
    ∃ p' c, hasFile p t p' c ∧ pathMatches p' = true ∧ load p' c = .error err
  | .file c, err, h => by
    by_cases hm : pathMatches p = true
    · simp only [walkTree] at h
      rw [if_pos hm] at h
      cases hl : load p c with
      | error e =>
        rw [hl] at h
        injection h with he
        exact ⟨p, c, hasFile.here p c, hm, by rw [hl, he]⟩
      | ok cfg => rw [hl] at h; exact Except.noConfusion h
    · simp only [walkTree] at h
      rw [if_neg hm] at h
      exact Except.noConfusion h
  | .dir es, err, h => by
    simp only [walkTree] at h
    obtain ⟨e, he, p', c, hf, hm, hl⟩ := walkEntries_error_from load p (sortEntries es) err h
    exact ⟨p', c, hasFile.there e ((sortEntries_perm es).mem_iff.mp he) hf, hm, hl⟩
termination_by t => sizeOf t
decreasing_by
  simp [sortEntries_sizeOf] <;> omega

theorem walkEntries_error_from (load : List Char → List Char → Except (List Char) FileConfig)
    (p : List Char) : (l : List (List Char × FSTree)) → (err : List Char) →
    walkEntries load p l = .error err →
    ∃ e ∈ l, ∃ p' c, hasFile (childPath p e.1) e.2 p' c ∧ pathMatches p' = true ∧
      load p' c = .error err
  | [], err, h => by
    rw [show walkEntries load p [] = .ok [] by simp only [walkEntries]] at h
    exact Except.noConfusion h
  | (n, t) :: rest, err, h => by
    simp only [walkEntries] at h
    cases h1 : walkTree load (childPath p n) t with
    | error e1 =>
      rw [h1] at h
      injection h with he
      obtain ⟨p', c, hf, hm, hl⟩ := walkTree_error_from load (childPath p n) t e1 h1
      exact ⟨(n, t), List.mem_cons_self _ _, p', c, hf, hm, by rw [hl, he]⟩
    | ok cfgs1 =>
      rw [h1] at h
      cases h2 : walkEntries load p rest with
      | error e2 =>
        rw [h2] at h
        injection h with he
        obtain ⟨e, hee, p', c, hf, hm, hl⟩ := walkEntries_error_from load p rest e2 h2
        exact ⟨e, List.mem_cons_of_mem _ hee, p', c, hf, hm, by rw [hl, he]⟩
      | ok cfgs2 => rw [h2] at h; exact Except.noConfusion h
termination_by l => sizeOf l
decreasing_by
  · simp <;> omega
  · simp <;> omega
end

/-- C2: loading a directory returns one document per file whose lowercased
path ends in `.yaml`/`.yml` — exactly `countMatching` many when every such
file loads — skipping everything else; any matching file that fails to load
makes the whole directory load fail, and the error returned is a failing
file's own error; and the result depends only on the snapshot's canonical
form, i.e. it is identical however the operating system orders the directory
entries, because the walk sorts each directory's names. -/
theorem c2_directory_load :
    (∀ parse env dirPath t,
      (∀ p' c, hasFile dirPath t p' c → pathMatches p' = true →
        ∃ cfg, loadOneFile parse env p' c = .ok cfg) →
      ∃ cfgs, LoadConfigsFromDirectory parse env dirPath t = .ok cfgs ∧
        cfgs.length = countMatching dirPath t) ∧
    (∀ parse env dirPath t p' c,
      hasFile dirPath t p' c → pathMatches p' = true →
      (∀ cfg, loadOneFile parse env p' c ≠ .ok cfg) →
      ∀ cfgs, LoadConfigsFromDirectory parse env dirPath t ≠ .ok cfgs) ∧
    (∀ parse env dirPath t err,
      LoadConfigsFromDirectory parse env dirPath t = .error err →
      ∃ p' c, hasFile dirPath t p' c ∧ pathMatches p' = true ∧
        loadOneFile parse env p' c = .error err) ∧
    (∀ parse env dirPath t1 t2, canon t1 = canon t2 →
      LoadConfigsFromDirectory parse env dirPath t1 =
        LoadConfigsFromDirectory parse env dirPath t2) := by
  refine ⟨?_, ?_, ?_, ?_⟩
  · intro parse env dirPath t H
    exact walkTree_ok_of_all_ok (loadOneFile parse env) dirPath t H
  · intro parse env dirPath t p' c hf hm hfail cfgs hok
    obtain ⟨cfg, hcfg⟩ :=
      walkTree_ok_all (loadOneFile parse env) dirPath t cfgs hok p' c hf hm
    exact hfail cfg hcfg
  · intro parse env dirPath t err herr
    exact walkTree_error_from (loadOneFile parse env) dirPath t err herr
  · intro parse env dirPath t1 t2 hc
    calc LoadConfigsFromDirectory parse env dirPath t1
        = walkTree (loadOneFile parse env) dirPath (canon t1) :=
          (walkTree_canon _ _ t1).symm
      _ = walkTree (loadOneFile parse env) dirPath (canon t2) := by rw [hc]
      _ = LoadConfigsFromDirectory parse env dirPath t2 := walkTree_canon _ _ t2

/-- Parser of the C2 witness snapshot: every document parses. -/
def parseOkEx : List Char → Except (List Char) FileConfig :=
  fun content => .ok ⟨content, "Doc".toList, emptyMetadata, emptySpec⟩

/-- A snapshot with three recognized files (one in a subdirectory, one with
an upper-case extension), one skipped file, as the operating system returns
it on one occasion. -/
def treeEx1 : FSTree :=
  .dir [("b.yaml".toList, .file ("B".toList)),
    ("sub".toList, .dir [("c.YML".toList, .file ("C".toList)),
      ("skip.txt".toList, .file ("T".toList))]),
    ("a.yml".toList, .file ("A".toList))]

/-- The same snapshot returned in a different order. -/
def treeEx2 : FSTree :=
  .dir [("a.yml".toList, .file ("A".toList)),
    ("b.yaml".toList, .file ("B".toList)),
    ("sub".toList, .dir [("skip.txt".toList, .file ("T".toList)),
      ("c.YML".toList, .file ("C".toList))])]

/-- C2 witness: the concrete snapshot yields exactly its three recognized
files' documents (N = 3, the `.txt` entry and the subdirectory entry itself
skipped), and the two return orders of the same snapshot load to identical
results. -/
theorem c2_witness :
    (∃ cfgs, LoadConfigsFromDirectory parseOkEx [] ("d".toList) treeEx1 = .ok cfgs ∧
      cfgs.length = countMatching ("d".toList) treeEx1) ∧
    countMatching ("d".toList) treeEx1 = 3 ∧
    LoadConfigsFromDirectory parseOkEx [] ("d".toList) treeEx1 =
      LoadConfigsFromDirectory parseOkEx [] ("d".toList) treeEx2 := by
  refine ⟨?_, rfl, ?_⟩
  · exact c2_directory_load.1 parseOkEx [] ("d".toList) treeEx1
      (fun p' c _ _ => ⟨_, rfl⟩)
  · exact c2_directory_load.2.2.2 parseOkEx [] ("d".toList) treeEx1 treeEx2 rfl

end MirrorCli

